import Mathlib

/-!
Verification development for the compile-time type-reflection transformer
(instruction set, pack/unpack codec, AST type extractor, resolver,
reflection-mode oracle, class decorator).

The definitions below are a shallow embedding of the TypeScript source.
JavaScript numbers are modelled as exact naturals (all values reached by the
theorems below stay far below 2^53, where JavaScript arithmetic is exact);
the NaN value produced by parseInt on a digit-free string is modelled as
Option.none.  Host-compiler AST nodes are modelled by inductive types carrying
exactly the fields the transformer reads; object identity of AST nodes (used
by Array.prototype.indexOf on the literal stack) is modelled by a numeric
node id carried by every expression entry.
-/

/-!
The instruction set (enum ReflectionOp).  The source declares a plain
numeric enum; we mirror each member as its numeric value, in declaration
order.  Members whose names are Lean keywords are quoted.
-/
namespace ReflectionOp

/-- enum member end = 0 (sentinel; required to be 0). -/
def «end» : Nat := 0
def any : Nat := 1
def void : Nat := 2
def string : Nat := 3
def number : Nat := 4
def boolean : Nat := 5
def bigint : Nat := 6
def null : Nat := 7
def undefined : Nat := 8
/-- literal: 1 parameter (stack address of the literal value). -/
def literal : Nat := 9
def «function» : Nat := 10
def method : Nat := 11
/-- methodSignature: 1 parameter (stack address of the property name). -/
def methodSignature : Nat := 12
def property : Nat := 13
/-- propertySignature: 1 parameter (stack address of the property name). -/
def propertySignature : Nat := 14
def «constructor» : Nat := 15
def «class» : Nat := 16
def optional : Nat := 17
def «private» : Nat := 18
def «protected» : Nat := 19
def abstract : Nat := 20
/-- enum: 1 parameter (stack address of the enum entry). -/
def «enum» : Nat := 21
def set : Nat := 22
def map : Nat := 23
def constEnum : Nat := 24
def array : Nat := 25
def union : Nat := 26
def intersection : Nat := 27
def indexSignature : Nat := 28
def objectLiteral : Nat := 29
def mappedType : Nat := 30
def frame : Nat := 31
def date : Nat := 32
def int8Array : Nat := 33
def uint8ClampedArray : Nat := 34
def uint8Array : Nat := 35
def int16Array : Nat := 36
def uint16Array : Nat := 37
def int32Array : Nat := 38
def uint32Array : Nat := 39
def float32Array : Nat := 40
def float64Array : Nat := 41
def bigInt64Array : Nat := 42
def arrayBuffer : Nat := 43
def promise : Nat := 44
def push : Nat := 45
def query : Nat := 46
def condition : Nat := 47
def «extends» : Nat := 48

end ReflectionOp

/-- export const packSizeByte = 6. -/
def packSizeByte : Nat := 6

/-- export const packSize = 2 ** packSizeByte (= 64). -/
def packSize : Nat := 2 ^ packSizeByte

/-- A literal-stack entry (type StackEntry = Expression | (() =&gt; ...) | string
| number | boolean).  String entries are property-name strings compared by
value; `num` and `bool` model primitive entries; `expr` models an AST
Expression (a literal node or a synthesized zero-argument arrow function),
carrying its object identity as `id` and its rendered text as `text`.
JavaScript indexOf compares objects by identity, which coincides with
equality of `id` because node ids are never reused. -/
inductive StackEntry where
  | strE (s : String)
  | numE (n : Int)
  | boolE (b : Bool)
  | expr (id : Nat) (text : String)
deriving DecidableEq, Repr

/-- class PackStruct { ops: ReflectionOp[]; stack: StackEntry[] }. -/
structure PackStruct where
  ops : List Nat := []
  stack : List StackEntry := []
deriving DecidableEq, Repr

/-- type Packed = string | [...StackEntry[], string].  The array form is a
heterogeneous array whose final element is intended to be the encoded
opcode string (modelled as a StackEntry.strE element of the list). -/
inductive Packed where
  | str (s : String)
  | arr (l : List StackEntry)
deriving DecidableEq, Repr

/-- Digit characters used by BigInt.prototype.toString(36): 0-9 then a-z. -/
def digitChar36 (d : Nat) : Char :=
  if d < 10 then Char.ofNat (48 + d) else Char.ofNat (87 + d)

/-- Auxiliary big-endian base-36 digit expansion, fuel-indexed so that it
reduces definitionally.  For n &gt; 0 the digits of n are the digits of n / 36
followed by the digit of n % 36. -/
def natToBase36Aux : Nat → Nat → List Char
  | 0, _ => []
  | _ + 1, 0 => []
  | fuel + 1, n => natToBase36Aux fuel (n / 36) ++ [digitChar36 (n % 36)]

/-- BigInt.prototype.toString(36): lower-case positional base-36 rendering,
"0" for zero.  Fuel n + 1 always suffices since n / 36 strictly decreases. -/
def natToBase36 (n : Nat) : String :=
  if n = 0 then "0" else String.mk (natToBase36Aux (n + 1) n)

/-- The packed big integer: packedOp = Σ ops[i] * (packSize ** i), exactly the
accumulation loop in pack (BigInt arithmetic, hence exact). -/
def packOpsInt (ops : List Nat) : Nat :=
  ops.foldr (fun op acc => op + packSize * acc) 0

/-- export function pack(packOrOps): Packed.  We model the PackStruct form of
the union-typed parameter; the raw-array overload behaves exactly like a
PackStruct with empty stack (both return only the encoded opcode string). -/
def pack (packStruct : PackStruct) : Packed :=
  let opNumbers := natToBase36 (packOpsInt packStruct.ops)
  if packStruct.stack.length ≠ 0 then
    Packed.arr (packStruct.stack ++ [StackEntry.strE opNumbers])
  else
    Packed.str opNumbers

/-- Base-36 digit value accepted by parseInt(s, 36): 0-9, a-z, A-Z. -/
def digitVal36 (c : Char) : Option Nat :=
  if 48 ≤ c.toNat ∧ c.toNat ≤ 57 then some (c.toNat - 48)
  else if 97 ≤ c.toNat ∧ c.toNat ≤ 122 then some (c.toNat - 87)
  else if 65 ≤ c.toNat ∧ c.toNat ≤ 90 then some (c.toNat - 55)
  else none

/-- Accumulating loop of parseInt: consume the maximal leading run of base-36
digits; `started` records whether at least one digit was seen. -/
def jsParseIntAux : List Char → Nat → Bool → Option Nat
  | [], acc, started => if started then some acc else none
  | c :: rest, acc, started =>
    match digitVal36 c with
    | some d => jsParseIntAux rest (acc * 36 + d) true
    | none => if started then some acc else none

/-- parseInt(s, 36) with NaN modelled as none.  Leading-whitespace and sign
handling are omitted: every string this codec parses is a slice of a base-36
rendering, so those cases never arise. -/
def jsParseIntBase36 (s : String) : Option Nat :=
  jsParseIntAux s.data 0 false

/-- s.slice(0, -k): all characters but the last k (empty when length ≤ k). -/
def takeAllButLast (k : Nat) (s : String) : String :=
  String.mk (s.data.take (s.length - k))

/-- s.slice(-k): the last k characters (the whole string when length ≤ k). -/
def lastChars (k : Nat) (s : String) : String :=
  String.mk (s.data.drop (s.length - k))

/-- The inner slot loop of unpackOps: at step i the code computes
(ops / 2 ** (packSizeByte * i)) &amp; (packSize - 1), i.e. successive base-64
digits, and stops at the first zero slot.  Fuel v + 1 always suffices since
v / 64 strictly decreases. -/
def decodeSlots : Nat → Nat → List Nat
  | 0, _ => []
  | fuel + 1, v =>
    let op := v % 64
    if op = 0 then [] else op :: decodeSlots fuel (v / 64)

/-- One chunk of the slot loop.  parseInt of a digit-free string is NaN; in
JavaScript (NaN / x) &amp; 63 evaluates to 0, so the loop breaks immediately and
decodes nothing. -/
def decodeChunk : Option Nat → List Nat
  | none => []
  | some v => decodeSlots (v + 1) v

/-- The while-loop of function unpackOps, translated literally: while the
string is non-empty, FIRST drop its last 12 characters, THEN parse the last
12 characters of the remainder in base 36 and extract 6-bit slots from the
parsed number.  (Note the drop happens before the parse, exactly as in the
source.)  Fuel s.length + 1 always suffices since the length strictly
decreases on every iteration. -/
def unpackOpsAux : Nat → List Nat → String → List Nat
  | 0, acc, _ => acc
  | fuel + 1, acc, s =>
    if s.length = 0 then acc
    else
      let s2 := takeAllButLast 12 s
      let chunk := lastChars 12 s2
      unpackOpsAux fuel (acc ++ decodeChunk (jsParseIntBase36 chunk)) s2

/-- function unpackOps(decodedOps, encodedOPs): decodes opcodes from the
encoded string, appending to the accumulator. -/
def unpackOps (s : String) : List Nat :=
  unpackOpsAux (s.length + 1) [] s

/-- The result record of unpack: { ops, stack }. -/
structure UnpackResult where
  ops : List Nat
  stack : List StackEntry
deriving DecidableEq, Repr

/-- export function unpack(pack: Packed).  For a plain string, decode it.
For the array form the source reads the LAST ELEMENT and guards with
('string' !== encodedOPs) - a value comparison against the five-character
string "string", not a typeof check - returning empty ops and stack unless
the last element is literally the string "string". -/
def unpack : Packed → UnpackResult
  | Packed.str s => ⟨unpackOps s, []⟩
  | Packed.arr l =>
    match l.getLast? with
    | some (StackEntry.strE enc) =>
      if enc = "string" then
        let stack := if 1 < l.length then l.dropLast else []
        ⟨unpackOps enc, stack⟩
      else ⟨[], []⟩
    | _ => ⟨[], []⟩

/-!
AST model.  Inductive `Node` models the union (TypeNode | Declaration) that
extractPackStructOfType dispatches on, carrying exactly the fields the
transformer reads.  Named members carry their declared name directly as a
String ("" when the member has no name); this models getNameAsString from
the repository's reflection-ast module, which is not part of the provided
sources.  Modelled from the spec: getNameAsString returns the declared name
text of a name node and "" when absent; hasModifier reports presence of a
given modifier keyword, modelled by Boolean fields.  Callable parameters are
listed as Option Node: the parameter's type annotation when present.
-/
inductive Node where
  | stringKw
  | numberKw
  | booleanKw
  | bigintKw
  | voidKw
  | nullKw
  | undefinedKw
  | parenthesized (inner : Node)
  | interfaceDecl (name : String) (members : List Node) (heritage : List String)
  | typeLiteral (members : List Node)
  | typeRef (typeName : String) (typeArguments : List Node)
  | arrayType (elementType : Node)
  | propertySig (name : String) (type : Option Node)
  | propertyDecl (name : String) (type : Option Node)
      (questionToken isPrivate isProtected isAbstract : Bool)
  | methodDecl (name : String) (parameters : List (Option Node))
      (type : Option Node) (isPrivate isProtected isAbstract : Bool)
  | ctorDecl (parameters : List (Option Node)) (type : Option Node)
  | funcDecl (name : String) (parameters : List (Option Node)) (type : Option Node)
  | funcExpr (parameters : List (Option Node)) (type : Option Node)
  | arrowFunc (parameters : List (Option Node)) (type : Option Node)
  | literalType (litId : Nat) (litText : String) (isNullLiteral : Bool)
  | unionType (types : List Node)
  | indexSig (parameterType : Option Node) (type : Node)
  | otherNode

/-- The outcome of resolveDeclaration for a type reference, as consumed by
extractPackStructOfTypeReference: the resolved declaration classified by the
isTypeAliasDeclaration / isMappedTypeNode / isEnumDeclaration /
isClassDeclaration tests, with every other declaration kind carried as the
node itself (the source then recurses on it directly). -/
inductive ResolvedDecl where
  | typeAlias (type : Node)
  | mappedType
  | enumDecl
  | classDecl
  | otherDecl (declaration : Node)

/-- The resolution environment: what resolveDeclaration answers for each
identifier in scope.  This abstracts the type-checker-driven resolver (which
is itself embedded separately below); extraction consumes only the resolved
declaration.  The import-preservation side effect (ensureImportIsEmitted,
which ors a Synthesized flag onto the import specifier node) is a mutation
of host AST state with no bearing on the emitted ops or stack and is not
modelled. -/
structure Env where
  resolve : String → Option ResolvedDecl

/-- An environment in which no identifier resolves. -/
def envEmpty : Env := ⟨fun _ => none⟩

/-- The mutable state threaded through extraction: the opcode accumulator and
literal stack (the two arrays the source mutates), plus `nextId`, the supply
of fresh object identities for arrow functions synthesized by the node
factory (each createArrowFunction call yields a brand-new object), and
`seen`, the member list used for name deduplication while an interface or
type literal is being flattened (the source's closure-local `members`
array). -/
structure ExtractState where
  ops : List Nat
  stack : List StackEntry
  nextId : Nat
  seen : List Node

/-- The empty extraction state with fresh-id supply n. -/
def stEmpty (n : Nat) : ExtractState := ⟨[], [], n, []⟩

/-- ops.push(op). -/
def pushOp (st : ExtractState) (op : Nat) : ExtractState :=
  { st with ops := st.ops ++ [op] }

/-- stack.indexOf(entry) with the not-found sentinel modelled as the stack
length (the source tests index !== -1, we equivalently test index &lt;
length). -/
def seIndexOf : List StackEntry → StackEntry → Nat
  | [], _ => 0
  | x :: rest, e => if x = e then 0 else seIndexOf rest e + 1

/-- function findOrAddStackEntry(stack, entry): the index of entry if
present, else push it and return the new last index.  Returns the index and
the (possibly extended) stack. -/
def findOrAddStackEntry (stack : List StackEntry) (entry : StackEntry) :
    Nat × List StackEntry :=
  let index := seIndexOf stack entry
  if index < stack.length then (index, stack)
  else (stack.length, stack ++ [entry])

/-- The knownClasses table mapping built-in identifiers to opcodes. -/
def knownClasses : List (String × Nat) :=
  [("Int8Array", ReflectionOp.int8Array),
   ("Uint8Array", ReflectionOp.uint8Array),
   ("Uint8ClampedArray", ReflectionOp.uint8ClampedArray),
   ("Int16Array", ReflectionOp.int16Array),
   ("Uint16Array", ReflectionOp.uint16Array),
   ("Int32Array", ReflectionOp.int32Array),
   ("Uint32Array", ReflectionOp.uint32Array),
   ("Float32Array", ReflectionOp.float32Array),
   ("Float64Array", ReflectionOp.float64Array),
   ("ArrayBuffer", ReflectionOp.arrayBuffer),
   ("BigInt64Array", ReflectionOp.bigInt64Array),
   ("Date", ReflectionOp.date),
   ("String", ReflectionOp.string),
   ("Number", ReflectionOp.number),
   ("BigInt", ReflectionOp.bigint),
   ("Boolean", ReflectionOp.boolean)]

/-- this.knownClasses[name] (all table values are non-zero, so JavaScript
truthiness of the lookup coincides with Option.isSome). -/
def knownClassOp (name : String) : Option Nat :=
  (knownClasses.find? (fun p => p.1 == name)).map (fun p => p.2)

/-- getNameAsString(member.name) as used for interface-member deduplication:
the declared name of a member declaration, "" when it has none (constructor
declarations and index signatures have no name node). -/
def memberDeclName : Node → String
  | Node.propertySig n _ => n
  | Node.propertyDecl n _ _ _ _ _ => n
  | Node.methodDecl n _ _ _ _ _ => n
  | Node.funcDecl n _ _ => n
  | _ => ""

/-- Emit the modifier opcodes for a method declaration: private, protected,
abstract, in that order, each when the modifier is present. -/
def pushMods (st : ExtractState) (priv prot abst : Bool) : ExtractState :=
  let st1 := if priv then pushOp st ReflectionOp.«private» else st
  let st2 := if prot then pushOp st1 ReflectionOp.«protected» else st1
  if abst then pushOp st2 ReflectionOp.abstract else st2

/-- Emit the opcodes after a property declaration's type: optional when the
question token is present, then the modifiers in the fixed order private,
protected, abstract. -/
def pushPropFlags (st : ExtractState) (quest priv prot abst : Bool) : ExtractState :=
  let st1 := if quest then pushOp st ReflectionOp.optional else st
  pushMods st1 priv prot abst

/-- The mutually recursive walks of the extractor, merged into one
fuel-indexed dispatcher so that every definition is structurally recursive
(and therefore reduces definitionally).  The Job constructors correspond to:
the main extractPackStructOfType body (node), iteration over union subtypes
or generic type arguments (nodeList), iteration over callable parameters
(params), the interface-flattening closure extractMembers - own members
followed by heritage clauses, sharing the deduplication list (mems, own,
herit) - and extractPackStructOfTypeReference (ref).  Fuel bounds the
recursion depth; the JavaScript original recurses unboundedly (and can in
fact diverge on cyclic type aliases), so the theorems below either hold for
every fuel or supply an ample concrete fuel. -/
inductive Job where
  | node (n : Node)
  | nodeList (l : List Node)
  | params (l : List (Option Node))
  | mems (ms : List Node) (hs : List String)
  | own (l : List Node)
  | herit (l : List String)
  | ref (name : String) (args : List Node)

/-- The isInterfaceDeclaration(resolved.declaration) test of the heritage
walk: when a heritage identifier resolves to an interface declaration, yield
its members and heritage clauses (the closure then recurses into them);
every other resolution outcome is skipped. -/
def heritageInterfaceOf : Option ResolvedDecl → Option (List Node × List String)
  | some (ResolvedDecl.otherDecl (Node.interfaceDecl _ ms hs)) => some (ms, hs)
  | _ => none

def extractGo (env : Env) : Nat → Job → ExtractState → ExtractState
  | 0, _, st => st
  | fuel + 1, job, st =>
    match job with
    | Job.node n =>
      match n with
      | Node.parenthesized inner => extractGo env fuel (Job.node inner) st
      | Node.stringKw => pushOp st ReflectionOp.string
      | Node.numberKw => pushOp st ReflectionOp.number
      | Node.booleanKw => pushOp st ReflectionOp.boolean
      | Node.bigintKw => pushOp st ReflectionOp.bigint
      | Node.voidKw => pushOp st ReflectionOp.void
      | Node.nullKw => pushOp st ReflectionOp.null
      | Node.undefinedKw => pushOp st ReflectionOp.undefined
      | Node.interfaceDecl _ members heritage =>
        let st1 := extractGo env fuel (Job.mems members heritage) { st with seen := [] }
        { st1 with seen := st.seen, ops := st1.ops ++ [ReflectionOp.objectLiteral] }
      | Node.typeLiteral members =>
        let st1 := extractGo env fuel (Job.mems members []) { st with seen := [] }
        { st1 with seen := st.seen, ops := st1.ops ++ [ReflectionOp.objectLiteral] }
      | Node.typeRef name args => extractGo env fuel (Job.ref name args) st
      | Node.arrayType elementType =>
        pushOp (extractGo env fuel (Job.node elementType) st) ReflectionOp.array
      | Node.propertySig name (some ty) =>
        let st1 := extractGo env fuel (Job.node ty) st
        let fa := findOrAddStackEntry st1.stack (StackEntry.strE name)
        { st1 with stack := fa.2,
                   ops := st1.ops ++ [ReflectionOp.propertySignature, fa.1] }
      | Node.propertySig _ none => pushOp st ReflectionOp.any
      | Node.ctorDecl _ (some ty) =>
        pushOp (extractGo env fuel (Job.node ty) st) ReflectionOp.«constructor»
      | Node.ctorDecl parameters none =>
        if parameters.isEmpty then st
        else
          let st1 := extractGo env fuel (Job.params parameters) st
          pushOp (pushOp st1 ReflectionOp.any) ReflectionOp.method
      | Node.propertyDecl _ (some ty) quest priv prot abst =>
        pushPropFlags (extractGo env fuel (Job.node ty) st) quest priv prot abst
      | Node.propertyDecl _ none _ _ _ _ => pushOp st ReflectionOp.any
      | Node.methodDecl _ parameters type priv prot abst =>
        if parameters.isEmpty && type.isNone then st
        else
          let st1 := extractGo env fuel (Job.params parameters) st
          let st2 := match type with
                     | some ty => extractGo env fuel (Job.node ty) st1
                     | none => pushOp st1 ReflectionOp.any
          pushMods (pushOp st2 ReflectionOp.method) priv prot abst
      | Node.funcDecl _ parameters type =>
        if parameters.isEmpty && type.isNone then st
        else
          let st1 := extractGo env fuel (Job.params parameters) st
          let st2 := match type with
                     | some ty => extractGo env fuel (Job.node ty) st1
                     | none => pushOp st1 ReflectionOp.any
          pushOp st2 ReflectionOp.«function»
      | Node.funcExpr parameters type =>
        if parameters.isEmpty && type.isNone then st
        else
          let st1 := extractGo env fuel (Job.params parameters) st
          let st2 := match type with
                     | some ty => extractGo env fuel (Job.node ty) st1
                     | none => pushOp st1 ReflectionOp.any
          pushOp st2 ReflectionOp.«function»
      | Node.arrowFunc parameters type =>
        if parameters.isEmpty && type.isNone then st
        else
          let st1 := extractGo env fuel (Job.params parameters) st
          let st2 := match type with
                     | some ty => extractGo env fuel (Job.node ty) st1
                     | none => pushOp st1 ReflectionOp.any
          pushOp st2 ReflectionOp.«function»
      | Node.literalType litId litText isNullLiteral =>
        if isNullLiteral then pushOp st ReflectionOp.null
        else
          let fa := findOrAddStackEntry st.stack (StackEntry.expr litId litText)
          { st with stack := fa.2, ops := st.ops ++ [ReflectionOp.literal, fa.1] }
      | Node.unionType types =>
        match types with
        | [] => st
        | [t] => extractGo env fuel (Job.node t) st
        | _ =>
          let st1 := if st.ops.isEmpty then st
                     else { st with ops := st.ops ++ [ReflectionOp.frame] }
          let st2 := extractGo env fuel (Job.nodeList types) st1
          { st2 with ops := st2.ops ++ [ReflectionOp.union] }
      | Node.indexSig parameterType type =>
        let st1 := match parameterType with
                   | some k => extractGo env fuel (Job.node k) st
                   | none => pushOp st ReflectionOp.any
        pushOp (extractGo env fuel (Job.node type) st1) ReflectionOp.indexSignature
      | Node.otherNode => pushOp st ReflectionOp.any
    | Job.nodeList l =>
      match l with
      | [] => st
      | n :: rest => extractGo env fuel (Job.nodeList rest) (extractGo env fuel (Job.node n) st)
    | Job.params l =>
      match l with
      | [] => st
      | none :: rest => extractGo env fuel (Job.params rest) st
      | some t :: rest =>
        extractGo env fuel (Job.params rest) (extractGo env fuel (Job.node t) st)
    | Job.mems ms hs =>
      extractGo env fuel (Job.herit hs) (extractGo env fuel (Job.own ms) st)
    | Job.own l =>
      match l with
      | [] => st
      | m :: rest =>
        let nm := memberDeclName m
        if nm != "" && st.seen.any (fun v => memberDeclName v == nm) then
          extractGo env fuel (Job.own rest) st
        else
          extractGo env fuel (Job.own rest)
            (extractGo env fuel (Job.node m) { st with seen := st.seen ++ [m] })
    | Job.herit l =>
      match l with
      | [] => st
      | h :: rest =>
        match heritageInterfaceOf (env.resolve h) with
        | some (ms, hs2) =>
          extractGo env fuel (Job.herit rest)
            (extractGo env fuel (Job.mems ms hs2) st)
        | none => extractGo env fuel (Job.herit rest) st
    | Job.ref name args =>
      match knownClassOp name with
      | some op => pushOp st op
      | none =>
        if name == "Promise" then
          let st1 := match args.head? with
                     | some t => extractGo env fuel (Job.node t) st
                     | none => pushOp st ReflectionOp.any
          pushOp st1 ReflectionOp.promise
        else
          match env.resolve name with
          | none => pushOp st ReflectionOp.any
          | some (ResolvedDecl.typeAlias ty) => extractGo env fuel (Job.node ty) st
          | some ResolvedDecl.mappedType => st
          | some ResolvedDecl.enumDecl =>
            let arrow := StackEntry.expr st.nextId ("() => " ++ name)
            let fa := findOrAddStackEntry st.stack arrow
            { st with stack := fa.2, nextId := st.nextId + 1,
                      ops := st.ops ++ [ReflectionOp.«enum», fa.1] }
          | some ResolvedDecl.classDecl =>
            let st1 := { st with
              stack := st.stack ++ [StackEntry.expr st.nextId ("() => " ++ name)],
              nextId := st.nextId + 1 }
            pushOp (extractGo env fuel (Job.nodeList args) st1) ReflectionOp.«class»
          | some (ResolvedDecl.otherDecl d) => extractGo env fuel (Job.node d) st

/-- protected extractPackStructOfType(node, ops, stack): the main entry
point of the extractor, on a single node. -/
def extractPackStructOfType (env : Env) (fuel : Nat) (node : Node)
    (st : ExtractState) : ExtractState :=
  extractGo env fuel (Job.node node) st

/-- protected extractPackStructOfTypeReference(type, ops, stack). -/
def extractPackStructOfTypeReference (env : Env) (fuel : Nat) (name : String)
    (args : List Node) (st : ExtractState) : ExtractState :=
  extractGo env fuel (Job.ref name args) st

/-!
Decorator.  decorateClass walks the class members, obtains each member's
encoded type via getTypeOfType, and appends a static member named __type
whose initializer is an object literal mapping member names to their Packed
expressions.  The Packed value itself models the rendered expression
(valueToExpression translates strings and numbers to literal nodes, arrays
to array literals, and inserts Expression stack entries verbatim - a
structural translation we identify with the Packed value).
-/

/-- A class member as decorateClass sees it: either an ordinary member
declaration, or the synthesized static __type property (whose initializer is
the object literal mapping member names to Packed expressions). -/
inductive ClassElement where
  | member (m : Node)
  | typeMember (init : List (String × Packed))

/-- The name under which decorateClass files a member: property.name if
present, the string "constructor" for constructor declarations, "" otherwise
(the synthesized __type property is named "__type"). -/
def classElementName : ClassElement → String
  | ClassElement.typeMember _ => "__type"
  | ClassElement.member (Node.ctorDecl _ _) => "constructor"
  | ClassElement.member m => memberDeclName m

/-- A class declaration: its name and member list. -/
structure ClassDecl where
  name : String
  members : List ClassElement

/-- protected packOpsAndStack(packStruct): undefined when no ops were
produced, else the packed value (rendered to an expression). -/
def packOpsAndStack (st : ExtractState) : Option Packed :=
  if st.ops.isEmpty then none
  else some (pack ⟨st.ops, st.stack⟩)

/-- protected getTypeOfType(type): consult the reflection mode resolved for
the member node (only the string "never" suppresses), then extract into a
fresh PackStruct and pack.  `mode` is the member's resolved reflection mode
and `nid` the fresh-node-id supply for synthesized arrows. -/
def getTypeOfType (env : Env) (fuel : Nat) (nid : Nat) (mode : String)
    (node : Node) : Option Packed :=
  if mode = "never" then none
  else packOpsAndStack (extractPackStructOfType env fuel node (stEmpty nid))

/-- The member loop of decorateClass: accumulate property assignments for
members that produce a pack; none models the early `return classDeclaration`
taken when a member named __type is encountered (the class was already
decorated). -/
def decorateClassGo (env : Env) (fuel : Nat) (nid : Nat)
    (memberMode : Node → String) :
    List ClassElement → List (String × Packed) → Option (List (String × Packed))
  | [], elements => some elements
  | el :: rest, elements =>
    let name := classElementName el
    if name = "" then decorateClassGo env fuel nid memberMode rest elements
    else if name = "__type" then none
    else
      match el with
      | ClassElement.typeMember _ => none
      | ClassElement.member m =>
        match getTypeOfType env fuel nid (memberMode m) m with
        | none => decorateClassGo env fuel nid memberMode rest elements
        | some p => decorateClassGo env fuel nid memberMode rest (elements ++ [(name, p)])

/-- protected decorateClass(classDeclaration).  `classMode` is the
reflection mode resolved for the class node and `memberMode` the mode
resolved for each member node (both produced by findReflectionConfig in the
source).  The class is returned unchanged when its mode is "never", when a
member named __type already exists, or when no member produced a pack;
otherwise the static __type member is appended after the existing
members. -/
def decorateClass (env : Env) (fuel : Nat) (nid : Nat) (classMode : String)
    (memberMode : Node → String) (c : ClassDecl) : ClassDecl :=
  if classMode = "never" then c
  else
    match decorateClassGo env fuel nid memberMode c.members [] with
    | none => c
    | some [] => c
    | some elements => ⟨c.name, c.members ++ [ClassElement.typeMember elements]⟩

/-!
Reflection-mode oracle: parseReflectionMode and findReflectionConfig.
-/

/-- A JSON value admissible for the reflection field (string or boolean), and
likewise the value passed to parseReflectionMode. -/
inductive ConfVal where
  | str (s : String)
  | bool (b : Bool)

/-- protected parseReflectionMode(mode): booleans map to "default" / "never";
a string maps to itself unless empty ("" || never). -/
def parseReflectionMode : ConfVal → String
  | ConfVal.bool b => if b then "default" else "never"
  | ConfVal.str s => if s = "" then "never" else s

/-- A doc-comment tag as getJSDocTags exposes it: the tag name and its
comment when the comment is a string (none models a non-string comment). -/
structure JSTag where
  tagName : String
  comment : Option String

/-- A tsconfig.json probe result for one ancestor directory: the file is
absent, fails to parse (caught and warned), or parses with an optional
reflection field. -/
inductive DirEntry where
  | noConfig
  | parseError
  | config (reflection : Option ConfVal)

/-- The context findReflectionConfig reads for a node: the doc-comment tags
of the node and of each ancestor (innermost first), the session override
(this.reflectionMode), and the tsconfig probe results for each ancestor
directory of the source file, innermost first (the walk stops at the
filesystem root, so the list is finite). -/
structure OracleEnv where
  chain : List (List JSTag)
  override : Option String
  dirs : List DirEntry

/-- The mode a matching reflection tag yields: the source computes
parseReflectionMode(tag.comment || true), so an empty comment behaves as the
boolean true. -/
def tagModeValue (c : String) : String :=
  parseReflectionMode (if c = "" then ConfVal.bool true else ConfVal.str c)

/-- The parent-chain walk: at each level, the first tag named "reflection"
whose comment is a string determines the mode immediately. -/
def findTagMode : List (List JSTag) → Option String
  | [] => none
  | tags :: rest =>
    match tags.find? (fun t => t.tagName == "reflection" && t.comment.isSome) with
    | some t => some (tagModeValue (t.comment.getD ""))
    | none => findTagMode rest

/-- The directory walk: the first ancestor whose tsconfig parses and carries
a reflection field determines the mode; absent or unparseable files are
skipped; exhausting the walk yields "never". -/
def walkDirs : List DirEntry → String
  | [] => "never"
  | DirEntry.config (some v) :: _ => parseReflectionMode v
  | _ :: rest => walkDirs rest

/-- protected findReflectionConfig(node): doc-comment tags up the parent
chain first, then the session override, then the tsconfig directory walk,
and finally the fallback "never". -/
def findReflectionConfig (oenv : OracleEnv) : String :=
  match findTagMode oenv.chain with
  | some m => m
  | none =>
    match oenv.override with
    | some m => m
    | none => walkDirs oenv.dirs

/-- Whether a directory entry carries a reflection field. -/
def hasReflectionField : DirEntry → Bool
  | DirEntry.config (some _) => true
  | _ => false

/-!
Resolver: resolveImportSpecifier, findDeclarationInFile and
resolveDeclaration over a model of source files, export declarations and the
host type checker.
-/

/-- An import or export declaration as the resolver consumes it: whether its
module specifier is a string literal, and the source file the emit resolver
yields for it (getExternalModuleFileFromDeclaration), as an index into the
program's files. -/
structure ModuleRef where
  specifierIsStringLiteral : Bool
  file : Option Nat
deriving DecidableEq, Repr

/-- A top-level statement, as far as the export walk distinguishes them:
named re-exports (element name with optional property name), star
re-exports, namespace exports (export * as ns, which have an exportClause
that is not NamedExports and are skipped), and anything else. -/
inductive Stmt where
  | exportNamed (elements : List (String × Option String)) (m : ModuleRef)
  | exportStar (m : ModuleRef)
  | exportNamespace (m : ModuleRef)
  | otherStmt

/-- A source file: its locals table (name to first declaration, as numeric
declaration ids) and its statements. -/
structure SFile where
  locals : List (String × Nat)
  statements : List Stmt

/-- The program: source files by index (the emit resolver's view). -/
structure Prog where
  files : Nat → Option SFile

/-- protected findDeclarationInFile(sourceFile, declarationName): the first
declaration of the file-local symbol of that name. -/
def findDeclarationInFile (src : SFile) (declarationName : String) : Option Nat :=
  (src.locals.find? (fun p => p.1 == declarationName)).map (fun p => p.2)

/-- Work items of the resolver recursion, merged into one fuel-indexed
dispatcher (like Job for the extractor): resolveImportSpecifier on a module
reference, the statement scan of the target file, and the element scan of a
named re-export. -/
inductive RJob where
  | spec (name : String) (m : ModuleRef)
  | stmts (name : String) (l : List Stmt)
  | elems (name : String) (l : List (String × Option String)) (m : ModuleRef)

/-- protected resolveImportSpecifier(declarationName, importOrExport) and its
export scan.  The module specifier must be a string literal and the emit
resolver must yield a file; the sought name is looked up in the file's
locals, then among its re-exports: a named re-export matching the sought
name recurses with the property name if present (else the same name); a star
re-export recurses with the same name.  Fuel bounds the module-hop depth
(the JavaScript original can diverge on cyclic star re-exports). -/
def resolveGo (prog : Prog) : Nat → RJob → Option Nat
  | 0, _ => none
  | fuel + 1, job =>
    match job with
    | RJob.spec name m =>
      if !m.specifierIsStringLiteral then none
      else
        match m.file.bind prog.files with
        | none => none
        | some src =>
          match findDeclarationInFile src name with
          | some d => some d
          | none => resolveGo prog fuel (RJob.stmts name src.statements)
    | RJob.stmts name l =>
      match l with
      | [] => none
      | Stmt.exportNamed elements m2 :: rest =>
        (match resolveGo prog fuel (RJob.elems name elements m2) with
         | some d => some d
         | none => resolveGo prog fuel (RJob.stmts name rest))
      | Stmt.exportStar m2 :: rest =>
        (match resolveGo prog fuel (RJob.spec name m2) with
         | some d => some d
         | none => resolveGo prog fuel (RJob.stmts name rest))
      | _ :: rest => resolveGo prog fuel (RJob.stmts name rest)
    | RJob.elems name l m2 =>
      match l with
      | [] => none
      | (ename, pname) :: rest =>
        if ename == name then
          match resolveGo prog fuel (RJob.spec (pname.getD name) m2) with
          | some d => some d
          | none => resolveGo prog fuel (RJob.elems name rest m2)
        else resolveGo prog fuel (RJob.elems name rest m2)

/-- protected resolveImportSpecifier(declarationName, importOrExport). -/
def resolveImportSpecifier (prog : Prog) (fuel : Nat) (declarationName : String)
    (m : ModuleRef) : Option Nat :=
  resolveGo prog fuel (RJob.spec declarationName m)

/-- A declaration as resolveDeclaration handles it: an import specifier
(carrying declaration.parent.parent.parent, the enclosing import
declaration) or any other declaration as a numeric id. -/
inductive DeclRef where
  | importSpec (m : ModuleRef)
  | plain (id : Nat)
deriving DecidableEq, Repr

/-- The host type checker, keyed by identifier text (each theorem concerns a
fixed identifier occurrence): getSymbolAtLocation(e).declarations (none when
the symbol or its declarations are undefined), and the first declaration of
the symbol of getDeclaredTypeOfSymbol(symbol) (none when any step of that
chain is undefined). -/
structure Checker where
  symbolDecls : String → Option (List DeclRef)
  declaredTypeFirstDecl : String → Option DeclRef

/-- protected resolveDeclaration(e): the symbol's first declaration; when it
is missing or an import specifier, try the declared type of the symbol; when
that also fails and the declaration is an import specifier, fall back to
resolveImportSpecifier - with the HARD-CODED name "Message", exactly as in
the source - through the enclosing import declaration.  Returns the
declaration together with the import specifier when one was traversed. -/
def resolveDeclaration (prog : Prog) (ck : Checker) (fuel : Nat)
    (name : String) : Option (DeclRef × Option ModuleRef) :=
  match ck.symbolDecls name with
  | none => none
  | some decls =>
    let declaration0 := decls.head?
    let importSpecifier : Option ModuleRef :=
      match declaration0 with
      | some (DeclRef.importSpec m) => some m
      | _ => none
    let declaration : Option DeclRef :=
      match declaration0 with
      | none => ck.declaredTypeFirstDecl name
      | some (DeclRef.importSpec m) =>
        (match ck.declaredTypeFirstDecl name with
         | some d => some d
         | none => (resolveImportSpecifier prog fuel "Message" m).map DeclRef.plain)
      | some d => some d
    match declaration with
    | none => none
    | some d => some (d, importSpecifier)

/-!
Invariant vocabulary for the extractor theorems.
-/

/-- The opcodes that carry one inline parameter slot according to the spec's
invariant (literal, methodSignature, propertySignature, enum). -/
def paramOps : List Nat :=
  [ReflectionOp.literal, ReflectionOp.methodSignature,
   ReflectionOp.propertySignature, ReflectionOp.«enum»]

/-- Well-formedness of an opcode stream against a literal stack of length n:
reading the stream left to right, every opcode drawn from paramOps is
immediately followed by an index smaller than n (the index position is a
parameter byte, not an opcode), and every other opcode stands alone. -/
inductive ParamsOk (n : Nat) : List Nat → Prop where
  | nil : ParamsOk n []
  | plain (op : Nat) (rest : List Nat) (h : paramOps.contains op = false)
      (hr : ParamsOk n rest) : ParamsOk n (op :: rest)
  | withParam (op i : Nat) (rest : List Nat) (h : paramOps.contains op = true)
      (hi : i < n) (hr : ParamsOk n rest) : ParamsOk n (op :: i :: rest)

/-- Whether a stack entry is a plain string (property-name) entry. -/
def isStrEntry : StackEntry → Bool
  | StackEntry.strE _ => true
  | _ => false

/-- The text of a stack entry, for the spec's notion of textual equality:
string entries are their own text, expression entries are their rendered
source text. -/
def entryText : StackEntry → String
  | StackEntry.strE s => s
  | StackEntry.numE n => toString n
  | StackEntry.boolE b => toString b
  | StackEntry.expr _ t => t

/-- The extractor-state invariant: the opcode stream is well-formed against
the current stack, and the string entries on the stack are pairwise
distinct. -/
def StInv (st : ExtractState) : Prop :=
  ParamsOk st.stack.length st.ops ∧ (st.stack.filter isStrEntry).Nodup

/-- Relation between an input and an output state of one extraction step:
the output satisfies the invariant and its stack extends the input stack. -/
def StInvExt (st st' : ExtractState) : Prop :=
  ParamsOk st'.stack.length st'.ops
  ∧ (st'.stack.filter isStrEntry).Nodup
  ∧ ∃ t, st'.stack = st.stack ++ t

/-!
Concrete instances used by the counterexample and witness theorems.
-/

/-- The class of the spec's first concrete scenario: class M { title: string }. -/
def classM : ClassDecl :=
  ⟨"M", [ClassElement.member
    (Node.propertyDecl "title" (some Node.stringKw) false false false false)]⟩

/-- A union type node whose two member literal type nodes are distinct AST
nodes (ids 0 and 1) with the same literal text "a". -/
def twinLiteralUnion : Node :=
  Node.unionType [Node.literalType 0 "a" false, Node.literalType 1 "a" false]

/-- An import declaration with a string-literal module specifier that the
emit resolver maps to file 0. -/
def modelImportRef : ModuleRef := ⟨true, some 0⟩

/-- A source file declaring a local named "Model" (declaration id 7) and
nothing else. -/
def modelFile : SFile := ⟨[("Model", 7)], []⟩

/-- A program with the single source file above at index 0. -/
def modelProg : Prog := ⟨fun n => if n = 0 then some modelFile else none⟩

/-- A checker for a file importing Model: the identifier "Model" resolves to
a symbol whose first declaration is the import specifier, and the declared
type of the symbol yields no declaration. -/
def modelChecker : Checker :=
  ⟨fun n => if n = "Model" then some [DeclRef.importSpec modelImportRef] else none,
   fun _ => none⟩

/-!
Theorems.  First the codec claims, then helper lemmas for the extractor
invariants, then the remaining claims.
-/

/-- Claim C1 (code evaluation at the failing input).  The claim states that
unpack after pack is the identity on (opcodes, stack).  The code refutes it:
unpackOps drops the final 12 characters of the encoded string BEFORE parsing
(so every encoding of at most 12 characters decodes to no opcodes at all),
and for a non-empty stack the array guard compares the final array element
against the literal string "string", so the decoded result is empty as well.
Already the one-opcode input [string] round-trips to the empty opcode
list. -/
theorem C1_unpack_pack_eval :
    unpack (pack ⟨[ReflectionOp.string], []⟩) = ⟨[], []⟩
    ∧ unpack (pack ⟨[ReflectionOp.string, ReflectionOp.property],
        [StackEntry.strE "a"]⟩) = ⟨[], []⟩
    ∧ ([] : List Nat) ≠ [ReflectionOp.string]
    ∧ ([] : List StackEntry) ≠ [StackEntry.strE "a"] :=
  ⟨rfl, rfl, by decide, by decide⟩

/-- Claim C10: for every array-form input whose last element is not the
five-character string "string", unpack returns empty opcodes and an empty
stack - the guard compares the element's value against the literal text
"string", not its type. -/
theorem C10_array_guard (l : List StackEntry)
    (h : l.getLast? ≠ some (StackEntry.strE "string")) :
    unpack (Packed.arr l) = ⟨[], []⟩ := by
  cases hl : l.getLast? with
  | none => simp [unpack, hl]
  | some e =>
    cases e with
    | strE s =>
      have hs : s ≠ "string" := fun hss => h (by rw [hl, hss])
      simp [unpack, hl, hs]
    | numE n => simp [unpack, hl]
    | boolE b => simp [unpack, hl]
    | expr i t => simp [unpack, hl]

/-- Witness for C10 at a concrete input: the array ["a", "3"] (as produced by
pack of one stack entry with opcode string) has last element "3", not
"string", and unpacks to nothing. -/
theorem C10_array_guard_witness :
    ([StackEntry.strE "a", StackEntry.strE "3"] : List StackEntry).getLast?
        ≠ some (StackEntry.strE "string")
    ∧ unpack (Packed.arr [StackEntry.strE "a", StackEntry.strE "3"]) = ⟨[], []⟩ :=
  ⟨by decide, C10_array_guard _ (by decide)⟩

/-- Appending well-formed opcode streams preserves well-formedness. -/
theorem ParamsOk.append {n : Nat} {a b : List Nat} (ha : ParamsOk n a)
    (hb : ParamsOk n b) : ParamsOk n (a ++ b) := by
  induction ha with
  | nil => simpa using hb
  | plain op rest h _ ih => exact ParamsOk.plain op (rest ++ b) h ih
  | withParam op i rest h hi _ ih => exact ParamsOk.withParam op i (rest ++ b) h hi ih

/-- Well-formedness is monotone in the stack length: a valid index stays
valid when the stack grows. -/
theorem ParamsOk.mono {n m : Nat} (hnm : n ≤ m) {l : List Nat}
    (h : ParamsOk n l) : ParamsOk m l := by
  induction h with
  | nil => exact ParamsOk.nil
  | plain op rest h _ ih => exact ParamsOk.plain op rest h ih
  | withParam op i rest h hi _ ih =>
    exact ParamsOk.withParam op i rest h (Nat.lt_of_lt_of_le hi hnm) ih

/-- Appending a parameterless opcode preserves well-formedness. -/
theorem ParamsOk.snoc {n : Nat} {l : List Nat} {op : Nat} (h : ParamsOk n l)
    (hop : paramOps.contains op = false) : ParamsOk n (l ++ [op]) :=
  h.append (ParamsOk.plain op [] hop ParamsOk.nil)

/-- Appending a parameter-carrying opcode with an in-range index preserves
well-formedness. -/
theorem ParamsOk.snocPair {n : Nat} {l : List Nat} {op i : Nat}
    (h : ParamsOk n l) (hop : paramOps.contains op = true) (hi : i < n) :
    ParamsOk n (l ++ [op, i]) :=
  h.append (ParamsOk.withParam op i [] hop hi ParamsOk.nil)

/-- A present entry is found by seIndexOf at an index below the length. -/
theorem seIndexOf_lt_of_mem {s : List StackEntry} {e : StackEntry}
    (h : e ∈ s) : seIndexOf s e < s.length := by
  induction s with
  | nil => cases h
  | cons x rest ih =>
    by_cases hx : x = e
    · simp [seIndexOf, hx]
    · cases h with
      | head => exact absurd rfl hx
      | tail _ h2 =>
        simp only [seIndexOf, if_neg hx, List.length_cons]
        exact Nat.succ_lt_succ (ih h2)

/-- findOrAddStackEntry returns an index valid for the stack it returns. -/
theorem findOrAdd_idx_lt (s : List StackEntry) (e : StackEntry) :
    (findOrAddStackEntry s e).1 < (findOrAddStackEntry s e).2.length := by
  by_cases hlt : seIndexOf s e < s.length
  · simp [findOrAddStackEntry, hlt]
  · simp [findOrAddStackEntry, hlt]

/-- findOrAddStackEntry returns either the unchanged stack or the stack with
the entry appended. -/
theorem findOrAdd_stack (s : List StackEntry) (e : StackEntry) :
    (findOrAddStackEntry s e).2 = s ∨ (findOrAddStackEntry s e).2 = s ++ [e] := by
  by_cases hlt : seIndexOf s e < s.length
  · exact Or.inl (by simp [findOrAddStackEntry, hlt])
  · exact Or.inr (by simp [findOrAddStackEntry, hlt])

/-- findOrAddStackEntry preserves distinctness of the string entries: it
only appends an entry that is not yet present. -/
theorem findOrAdd_nodup (s : List StackEntry) (e : StackEntry)
    (h : (s.filter isStrEntry).Nodup) :
    ((findOrAddStackEntry s e).2.filter isStrEntry).Nodup := by
  by_cases hlt : seIndexOf s e < s.length
  · simpa [findOrAddStackEntry, hlt] using h
  · rw [show (findOrAddStackEntry s e).2 = s ++ [e] by simp [findOrAddStackEntry, hlt]]
    have hem : e ∉ s := fun hmem => hlt (seIndexOf_lt_of_mem hmem)
    rw [List.filter_append]
    cases he : isStrEntry e
    · simpa [he] using h
    · rw [List.nodup_append]
      refine ⟨h, by simp [he], ?_⟩
      intro x hx hx2
      have hxe : x = e := by simpa [he] using hx2
      subst hxe
      exact hem (List.mem_of_mem_filter hx)

/-- An output state satisfying StInvExt satisfies the plain invariant. -/
theorem StInvExt.toInv {st st' : ExtractState} (h : StInvExt st st') : StInv st' :=
  ⟨h.1, h.2.1⟩

/-- The invariant yields the reflexive step relation. -/
theorem StInv.toExt {st : ExtractState} (h : StInv st) : StInvExt st st :=
  ⟨h.1, h.2, [], by simp⟩

/-- Step relations compose. -/
theorem StInvExt.trans {a b c : ExtractState} (h1 : StInvExt a b)
    (h2 : StInvExt b c) : StInvExt a c := by
  refine ⟨h2.1, h2.2.1, ?_⟩
  obtain ⟨t1, e1⟩ := h1.2.2
  obtain ⟨t2, e2⟩ := h2.2.2
  exact ⟨t1 ++ t2, by rw [e2, e1, List.append_assoc]⟩

/-- A state with only the seen list replaced is one step from the original. -/
theorem StInvExt.seen {st : ExtractState} (sn : List Node) (h : StInv st) :
    StInvExt st { st with seen := sn } :=
  ⟨h.1, h.2, [], by simp⟩

/-- Pushing a parameterless opcode is an invariant-preserving step. -/
theorem pushOp_invExt {st : ExtractState} (op : Nat)
    (hop : paramOps.contains op = false) (h : StInv st) :
    StInvExt st (pushOp st op) :=
  ⟨h.1.snoc hop, h.2, [], by simp [pushOp]⟩

/-- Conditionally pushing a parameterless opcode is an invariant-preserving
step. -/
theorem condPushOp_invExt {st : ExtractState} (b : Bool) (op : Nat)
    (hop : paramOps.contains op = false) (h : StInv st) :
    StInvExt st (if b then pushOp st op else st) := by
  cases b
  · exact h.toExt
  · exact pushOp_invExt op hop h

/-- pushMods is an invariant-preserving step. -/
theorem pushMods_invExt {st : ExtractState} (a b c : Bool) (h : StInv st) :
    StInvExt st (pushMods st a b c) := by
  unfold pushMods
  have h1 := condPushOp_invExt a ReflectionOp.«private» (by decide) h
  have h2 := condPushOp_invExt b ReflectionOp.«protected» (by decide) h1.toInv
  have h3 := condPushOp_invExt c ReflectionOp.abstract (by decide) h2.toInv
  exact (h1.trans h2).trans h3

/-- pushPropFlags is an invariant-preserving step. -/
theorem pushPropFlags_invExt {st : ExtractState} (q a b c : Bool)
    (h : StInv st) : StInvExt st (pushPropFlags st q a b c) := by
  unfold pushPropFlags
  have h1 := condPushOp_invExt q ReflectionOp.optional (by decide) h
  exact h1.trans (pushMods_invExt a b c h1.toInv)

/-- Every opcode in the knownClasses table is parameterless. -/
theorem knownClassOp_no_param {name : String} {op : Nat}
    (h : knownClassOp name = some op) : paramOps.contains op = false := by
  have hall : ∀ p ∈ knownClasses, paramOps.contains p.2 = false := by decide
  unfold knownClassOp at h
  cases hf : knownClasses.find? (fun p => p.1 == name) with
  | none => rw [hf] at h; cases h
  | some p =>
    rw [hf] at h
    have hp := List.mem_of_find?_eq_some hf
    cases h
    exact hall p hp

/-- Extending the stack with a findOrAddStackEntry result is an
invariant-preserving step that also appends a parameter-carrying opcode with
the returned (valid) index. -/
theorem findOrAdd_push_invExt {st : ExtractState} (e : StackEntry) (op : Nat)
    (hop : paramOps.contains op = true) (h : StInv st) (nid : Nat) :
    StInvExt st
      { st with stack := (findOrAddStackEntry st.stack e).2, nextId := nid,
                ops := st.ops ++ [op, (findOrAddStackEntry st.stack e).1] } := by
  have hidx := findOrAdd_idx_lt st.stack e
  have hnd := findOrAdd_nodup st.stack e h.2
  have hst := findOrAdd_stack st.stack e
  have hlen : st.stack.length ≤ (findOrAddStackEntry st.stack e).2.length := by
    cases hst with
    | inl he => rw [he]
    | inr he => rw [he]; simp
  refine ⟨(h.1.mono hlen).snocPair hop hidx, hnd, ?_⟩
  cases hst with
  | inl he => exact ⟨[], by simp [he]⟩
  | inr he => exact ⟨[e], he⟩

/-- Pushing a synthesized arrow expression directly onto the stack (the
class-reference branch) is an invariant-preserving step: expression entries
never disturb the string-entry distinctness, and the stack only grows. -/
theorem pushExprStack_invExt {st : ExtractState} (i : Nat) (t : String)
    (nid : Nat) (h : StInv st) :
    StInvExt st { st with stack := st.stack ++ [StackEntry.expr i t],
                          nextId := nid } := by
  refine ⟨h.1.mono (by simp), ?_, ⟨[StackEntry.expr i t], rfl⟩⟩
  rw [List.filter_append]
  simpa [isStrEntry] using h.2

/-- The central invariant preservation lemma: every extraction step started
in a well-formed state yields a well-formed state whose stack extends the
input stack.  In particular every parameter-carrying opcode is emitted
together with an index valid for the stack at that moment (and, the stack
growing monotonically, for the final stack), and string entries stay
pairwise distinct. -/
theorem extractGo_invExt (env : Env) :
    ∀ (fuel : Nat) (job : Job) (st : ExtractState),
      StInv st → StInvExt st (extractGo env fuel job st) := by
  intro fuel
  induction fuel with
  | zero =>
    intro job st h
    simpa only [extractGo] using h.toExt
  | succ fuel ih =>
    intro job st h
    cases job with
    | node n =>
      cases n with
      | stringKw => simp only [extractGo]; exact pushOp_invExt _ (by decide) h
      | numberKw => simp only [extractGo]; exact pushOp_invExt _ (by decide) h
      | booleanKw => simp only [extractGo]; exact pushOp_invExt _ (by decide) h
      | bigintKw => simp only [extractGo]; exact pushOp_invExt _ (by decide) h
      | voidKw => simp only [extractGo]; exact pushOp_invExt _ (by decide) h
      | nullKw => simp only [extractGo]; exact pushOp_invExt _ (by decide) h
      | undefinedKw => simp only [extractGo]; exact pushOp_invExt _ (by decide) h
      | otherNode => simp only [extractGo]; exact pushOp_invExt _ (by decide) h
      | parenthesized inner =>
        simp only [extractGo]
        exact ih (Job.node inner) st h
      | typeRef name args =>
        simp only [extractGo]
        exact ih (Job.ref name args) st h
      | interfaceDecl nm members heritage =>
        simp only [extractGo]
        have h1 := ih (Job.mems members heritage) { st with seen := [] } h
        refine ⟨h1.1.snoc (by decide), h1.2.1, ?_⟩
        obtain ⟨t, ht⟩ := h1.2.2
        exact ⟨t, ht⟩
      | typeLiteral members =>
        simp only [extractGo]
        have h1 := ih (Job.mems members []) { st with seen := [] } h
        refine ⟨h1.1.snoc (by decide), h1.2.1, ?_⟩
        obtain ⟨t, ht⟩ := h1.2.2
        exact ⟨t, ht⟩
      | arrayType elementType =>
        simp only [extractGo]
        have h1 := ih (Job.node elementType) st h
        exact h1.trans (pushOp_invExt _ (by decide) h1.toInv)
      | propertySig name oty =>
        cases oty with
        | none => simp only [extractGo]; exact pushOp_invExt _ (by decide) h
        | some ty =>
          simp only [extractGo]
          have h1 := ih (Job.node ty) st h
          exact h1.trans (findOrAdd_push_invExt _ _ (by decide) h1.toInv _)
      | ctorDecl parameters oty =>
        cases oty with
        | some ty =>
          simp only [extractGo]
          have h1 := ih (Job.node ty) st h
          exact h1.trans (pushOp_invExt _ (by decide) h1.toInv)
        | none =>
          simp only [extractGo]
          cases hp : parameters.isEmpty with
          | true => simp only [if_true]; exact h.toExt
          | false =>
            simp only [Bool.false_eq_true, if_false]
            have h1 := ih (Job.params parameters) st h
            have h2 := pushOp_invExt ReflectionOp.any (by decide) h1.toInv
            exact (h1.trans h2).trans (pushOp_invExt _ (by decide) h2.toInv)
      | propertyDecl nm oty q pr pt ab =>
        cases oty with
        | none => simp only [extractGo]; exact pushOp_invExt _ (by decide) h
        | some ty =>
          simp only [extractGo]
          have h1 := ih (Job.node ty) st h
          exact h1.trans (pushPropFlags_invExt q pr pt ab h1.toInv)
      | methodDecl nm parameters oty pr pt ab =>
        simp only [extractGo]
        cases oty with
        | some ty =>
          simp only [Option.isNone_some, Bool.and_false, Bool.false_eq_true, if_false]
          have h1 := ih (Job.params parameters) st h
          have h2 := ih (Job.node ty) _ h1.toInv
          have h3 := pushOp_invExt ReflectionOp.method (by decide) h2.toInv
          exact ((h1.trans h2).trans h3).trans (pushMods_invExt pr pt ab h3.toInv)
        | none =>
          cases hp : parameters.isEmpty with
          | true => simp only [hp, Option.isNone_none, Bool.and_true, if_true]; exact h.toExt
          | false =>
            simp only [hp, Option.isNone_none, Bool.and_true, Bool.false_eq_true, if_false]
            have h1 := ih (Job.params parameters) st h
            have h2 := pushOp_invExt ReflectionOp.any (by decide) h1.toInv
            have h3 := pushOp_invExt ReflectionOp.method (by decide) h2.toInv
            exact ((h1.trans h2).trans h3).trans (pushMods_invExt pr pt ab h3.toInv)
      | funcDecl nm parameters oty =>
        simp only [extractGo]
        cases oty with
        | some ty =>
          simp only [Option.isNone_some, Bool.and_false, Bool.false_eq_true, if_false]
          have h1 := ih (Job.params parameters) st h
          have h2 := ih (Job.node ty) _ h1.toInv
          exact (h1.trans h2).trans (pushOp_invExt _ (by decide) h2.toInv)
        | none =>
          cases hp : parameters.isEmpty with
          | true => simp only [hp, Option.isNone_none, Bool.and_true, if_true]; exact h.toExt
          | false =>
            simp only [hp, Option.isNone_none, Bool.and_true, Bool.false_eq_true, if_false]
            have h1 := ih (Job.params parameters) st h
            have h2 := pushOp_invExt ReflectionOp.any (by decide) h1.toInv
            exact (h1.trans h2).trans (pushOp_invExt _ (by decide) h2.toInv)
      | funcExpr parameters oty =>
        simp only [extractGo]
        cases oty with
        | some ty =>
          simp only [Option.isNone_some, Bool.and_false, Bool.false_eq_true, if_false]
          have h1 := ih (Job.params parameters) st h
          have h2 := ih (Job.node ty) _ h1.toInv
          exact (h1.trans h2).trans (pushOp_invExt _ (by decide) h2.toInv)
        | none =>
          cases hp : parameters.isEmpty with
          | true => simp only [hp, Option.isNone_none, Bool.and_true, if_true]; exact h.toExt
          | false =>
            simp only [hp, Option.isNone_none, Bool.and_true, Bool.false_eq_true, if_false]
            have h1 := ih (Job.params parameters) st h
            have h2 := pushOp_invExt ReflectionOp.any (by decide) h1.toInv
            exact (h1.trans h2).trans (pushOp_invExt _ (by decide) h2.toInv)
      | arrowFunc parameters oty =>
        simp only [extractGo]
        cases oty with
        | some ty =>
          simp only [Option.isNone_some, Bool.and_false, Bool.false_eq_true, if_false]
          have h1 := ih (Job.params parameters) st h
          have h2 := ih (Job.node ty) _ h1.toInv
          exact (h1.trans h2).trans (pushOp_invExt _ (by decide) h2.toInv)
        | none =>
          cases hp : parameters.isEmpty with
          | true => simp only [hp, Option.isNone_none, Bool.and_true, if_true]; exact h.toExt
          | false =>
            simp only [hp, Option.isNone_none, Bool.and_true, Bool.false_eq_true, if_false]
            have h1 := ih (Job.params parameters) st h
            have h2 := pushOp_invExt ReflectionOp.any (by decide) h1.toInv
            exact (h1.trans h2).trans (pushOp_invExt _ (by decide) h2.toInv)
      | literalType litId litText isNullLiteral =>
        simp only [extractGo]
        cases isNullLiteral with
        | true => simp only [if_true]; exact pushOp_invExt _ (by decide) h
        | false =>
          simp only [Bool.false_eq_true, if_false]
          exact findOrAdd_push_invExt _ _ (by decide) h _
      | unionType types =>
        simp only [extractGo]
        cases types with
        | nil => exact h.toExt
        | cons t rest =>
          cases rest with
          | nil => exact ih (Job.node t) st h
          | cons t2 rest2 =>
            cases he : st.ops.isEmpty with
            | true =>
              simp only [he, if_true]
              have h1 := ih (Job.nodeList (t :: t2 :: rest2)) st h
              refine ⟨h1.1.snoc (by decide), h1.2.1, h1.2.2⟩
            | false =>
              simp only [he, Bool.false_eq_true, if_false]
              have h0 : StInvExt st { st with ops := st.ops ++ [ReflectionOp.frame] } :=
                ⟨h.1.snoc (by decide), h.2, [], by simp⟩
              have h1 := ih (Job.nodeList (t :: t2 :: rest2)) _ h0.toInv
              refine ⟨h1.1.snoc (by decide), h1.2.1, ?_⟩
              exact (h0.trans h1).2.2
      | indexSig okey valTy =>
        simp only [extractGo]
        cases okey with
        | some k =>
          have h1 := ih (Job.node k) st h
          have h2 := ih (Job.node valTy) _ h1.toInv
          exact (h1.trans h2).trans (pushOp_invExt _ (by decide) h2.toInv)
        | none =>
          have h1 := pushOp_invExt ReflectionOp.any (by decide) h
          have h2 := ih (Job.node valTy) _ h1.toInv
          exact (h1.trans h2).trans (pushOp_invExt _ (by decide) h2.toInv)
    | nodeList l =>
      cases l with
      | nil => simp only [extractGo]; exact h.toExt
      | cons n rest =>
        simp only [extractGo]
        have h1 := ih (Job.node n) st h
        exact h1.trans (ih (Job.nodeList rest) _ h1.toInv)
    | params l =>
      cases l with
      | nil => simp only [extractGo]; exact h.toExt
      | cons p rest =>
        cases p with
        | none => simp only [extractGo]; exact ih (Job.params rest) st h
        | some t =>
          simp only [extractGo]
          have h1 := ih (Job.node t) st h
          exact h1.trans (ih (Job.params rest) _ h1.toInv)
    | mems ms hs =>
      simp only [extractGo]
      have h1 := ih (Job.own ms) st h
      exact h1.trans (ih (Job.herit hs) _ h1.toInv)
    | own l =>
      cases l with
      | nil => simp only [extractGo]; exact h.toExt
      | cons m rest =>
        simp only [extractGo]
        cases hc : (memberDeclName m != "" &&
            st.seen.any fun v => memberDeclName v == memberDeclName m) with
        | true =>
          simp only [hc, if_true]
          exact ih (Job.own rest) st h
        | false =>
          simp only [hc, Bool.false_eq_true, if_false]
          have h0 := StInvExt.seen (st.seen ++ [m]) h
          have h1 := ih (Job.node m) { st with seen := st.seen ++ [m] } h
          exact (h0.trans h1).trans (ih (Job.own rest) _ h1.toInv)
    | herit l =>
      cases l with
      | nil => simp only [extractGo]; exact h.toExt
      | cons hd rest =>
        simp only [extractGo]
        cases hh : heritageInterfaceOf (env.resolve hd) with
        | none =>
          simp only [hh]
          exact ih (Job.herit rest) st h
        | some pr =>
          obtain ⟨ms, hs2⟩ := pr
          simp only [hh]
          have h1 := ih (Job.mems ms hs2) st h
          exact h1.trans (ih (Job.herit rest) _ h1.toInv)
    | ref name args =>
      simp only [extractGo]
      cases hk : knownClassOp name with
      | some op =>
        simp only [hk]
        exact pushOp_invExt op (knownClassOp_no_param hk) h
      | none =>
        simp only [hk]
        cases hprom : (name == "Promise") with
        | true =>
          simp only [hprom, if_true]
          cases hhead : args.head? with
          | some t =>
            simp only [hhead]
            have h1 := ih (Job.node t) st h
            exact h1.trans (pushOp_invExt _ (by decide) h1.toInv)
          | none =>
            simp only [hhead]
            have h1 := pushOp_invExt ReflectionOp.any (by decide) h
            exact h1.trans (pushOp_invExt _ (by decide) h1.toInv)
        | false =>
          simp only [hprom, Bool.false_eq_true, if_false]
          cases hr : env.resolve name with
          | none =>
            simp only [hr]
            exact pushOp_invExt _ (by decide) h
          | some r =>
            cases r with
            | typeAlias ty =>
              simp only [hr]
              exact ih (Job.node ty) st h
            | mappedType =>
              simp only [hr]
              exact h.toExt
            | enumDecl =>
              simp only [hr]
              exact findOrAdd_push_invExt _ _ (by decide) h _
            | classDecl =>
              simp only [hr]
              have h0 := pushExprStack_invExt st.nextId ("() => " ++ name) (st.nextId + 1) h
              have h1 := ih (Job.nodeList args) _ h0.toInv
              exact (h0.trans h1).trans (pushOp_invExt _ (by decide) h1.toInv)
            | otherDecl d =>
              simp only [hr]
              exact ih (Job.node d) st h

/-- Claim C6: in every (ops, stack) pair produced by the extractor (which
starts from an empty accumulator and stack), every literal,
propertySignature, methodSignature or enum opcode is immediately followed by
an index in [0, |stack|), where |stack| is the final stack length (the stack
grows monotonically, so validity at the moment of emission transfers to the
final stack; ParamsOk reads the stream left to right, skipping parameter
positions, so the indexed positions are exactly the opcode positions). -/
theorem C6_param_index_invariant (env : Env) (fuel : Nat) (node : Node) (nid : Nat) :
    ParamsOk (extractPackStructOfType env fuel node (stEmpty nid)).stack.length
      (extractPackStructOfType env fuel node (stEmpty nid)).ops := by
  have h0 : StInv (stEmpty nid) := ⟨ParamsOk.nil, by simp [stEmpty]⟩
  exact (extractGo_invExt env fuel (Job.node node) (stEmpty nid) h0).1

/-- Claim C7, counterexample to the claim as stated: extraction of the union
type (with two distinct literal type nodes both of text "a") produces a
stack whose indices 0 and 1 hold textually equal entries - the literal nodes
are pushed by object identity, not by text - so it is not the case that any
two textually equal entries occupy exactly one index. -/
theorem C7_counterexample :
    (extractPackStructOfType envEmpty 5 twinLiteralUnion (stEmpty 100)).stack
      = [StackEntry.expr 0 "a", StackEntry.expr 1 "a"]
    ∧ (extractPackStructOfType envEmpty 5 twinLiteralUnion (stEmpty 100)).ops
      = [ReflectionOp.literal, 0, ReflectionOp.literal, 1, ReflectionOp.union]
    ∧ entryText (StackEntry.expr 0 "a") = entryText (StackEntry.expr 1 "a")
    ∧ StackEntry.expr 0 "a" ≠ StackEntry.expr 1 "a" :=
  ⟨rfl, rfl, rfl, by decide⟩

/-- Claim C7 as amended: deduplication by value holds exactly for the string
entries of the literal stack - in particular two textually equal property
name strings share a single index (each string entry occurs at most once) -
while Expression entries (literal nodes, synthesized arrows) are
deduplicated only by object identity and may repeat textually. -/
theorem C7_string_entries_unique (env : Env) (fuel : Nat) (node : Node)
    (nid : Nat) (s : String) :
    (extractPackStructOfType env fuel node (stEmpty nid)).stack.count
      (StackEntry.strE s) ≤ 1 := by
  have h0 : StInv (stEmpty nid) := ⟨ParamsOk.nil, by simp [stEmpty]⟩
  have h1 := (extractGo_invExt env fuel (Job.node node) (stEmpty nid) h0).2.1
  have h2 : (extractPackStructOfType env fuel node (stEmpty nid)).stack.count
        (StackEntry.strE s)
      = ((extractPackStructOfType env fuel node (stEmpty nid)).stack.filter
          isStrEntry).count (StackEntry.strE s) := by
    rw [List.count_filter]
    simp [isStrEntry]
  rw [h2]
  exact List.nodup_iff_count_le_one.mp h1 _

/-- Claim C2, counterexample to the claim as stated: for the member
title: string of class M, the extractor emits exactly [string] - the
property-declaration branch never emits a property opcode (the source's own
doc comment shows static __types = pack(ReflectionOp.string) for this very
class) - so the claimed sequence [string, property] is wrong. -/
theorem C2_counterexample :
    (extractPackStructOfType envEmpty 5
      (Node.propertyDecl "title" (some Node.stringKw) false false false false)
      (stEmpty 0)).ops = [ReflectionOp.string]
    ∧ [ReflectionOp.string] ≠ [ReflectionOp.string, ReflectionOp.property] :=
  ⟨rfl, by decide⟩

/-- Claim C2 as amended: extraction of the member title of
class M { title: string } produces exactly the opcode sequence [string]
(and an empty literal stack), and the decorator (under a non-never
reflection mode) appends a static member __type whose initializer is the
object literal mapping "title" to the packed form of ([string], []). -/
theorem C2_amended :
    (extractPackStructOfType envEmpty 5
      (Node.propertyDecl "title" (some Node.stringKw) false false false false)
      (stEmpty 0)).ops = [ReflectionOp.string]
    ∧ (extractPackStructOfType envEmpty 5
      (Node.propertyDecl "title" (some Node.stringKw) false false false false)
      (stEmpty 0)).stack = []
    ∧ decorateClass envEmpty 5 0 "default" (fun _ => "default") classM
      = ⟨"M", classM.members
          ++ [ClassElement.typeMember
                [("title", pack ⟨[ReflectionOp.string], []⟩)]]⟩ :=
  ⟨rfl, rfl, rfl⟩

/-- Claim C3: for a union type node, 0 subtypes emit nothing; exactly 1
subtype recurses on that subtype only (no frame, no union opcode); 2 or more
subtypes emit frame exactly when the accumulator is already non-empty, then
recurse each subtype in order (the nodeList walk), then emit union. -/
theorem C3_union_emission (env : Env) (fuel : Nat) (st : ExtractState) :
    extractGo env (fuel + 1) (Job.node (Node.unionType [])) st = st
    ∧ (∀ t : Node, extractGo env (fuel + 1) (Job.node (Node.unionType [t])) st
        = extractGo env fuel (Job.node t) st)
    ∧ (∀ ts : List Node, 2 ≤ ts.length →
        extractGo env (fuel + 1) (Job.node (Node.unionType ts)) st
          = { extractGo env fuel (Job.nodeList ts)
                (if st.ops.isEmpty then st
                 else { st with ops := st.ops ++ [ReflectionOp.frame] }) with
              ops := (extractGo env fuel (Job.nodeList ts)
                  (if st.ops.isEmpty then st
                   else { st with ops := st.ops ++ [ReflectionOp.frame] })).ops
                ++ [ReflectionOp.union] })
    ∧ (∀ (t : Node) (rest : List Node) (st2 : ExtractState),
        extractGo env (fuel + 1) (Job.nodeList (t :: rest)) st2
          = extractGo env fuel (Job.nodeList rest)
              (extractGo env fuel (Job.node t) st2)) := by
  refine ⟨by simp only [extractGo], fun t => by simp only [extractGo],
    fun ts hts => ?_, fun t rest st2 => by simp only [extractGo]⟩
  cases ts with
  | nil => simp at hts
  | cons t1 ts1 =>
    cases ts1 with
    | nil => simp at hts
    | cons t2 ts2 => simp only [extractGo]

/-- Witness for C3 at a concrete input: the two-member union of string and
number, extracted from the empty state, where the theorem's third conjunct
applies and evaluates to the opcode sequence [string, number, union] with no
frame (empty accumulator). -/
theorem C3_union_emission_witness :
    2 ≤ ([Node.stringKw, Node.numberKw] : List Node).length
    ∧ extractGo envEmpty 4 (Job.node (Node.unionType [Node.stringKw, Node.numberKw]))
        (stEmpty 0)
      = ⟨[ReflectionOp.string, ReflectionOp.number, ReflectionOp.union], [], 0, []⟩ := by
  refine ⟨by simp, ?_⟩
  rw [(C3_union_emission envEmpty 3 (stEmpty 0)).2.2.1
    [Node.stringKw, Node.numberKw] (by simp)]
  rfl

/-- Claim C9: a type reference whose identifier is not a known built-in, is
not Promise, and does not resolve to a declaration makes the extractor
recover by emitting the single opcode any; likewise a type node of an
unhandled shape emits any.  (Totality - never failing or throwing - is
inherent: the embedded extractor is a total function.) -/
theorem C9_any_fallback (env : Env) (fuel : Nat) (st : ExtractState)
    (name : String) (args : List Node)
    (hk : knownClassOp name = none) (hp : name ≠ "Promise")
    (hr : env.resolve name = none) :
    extractPackStructOfTypeReference env (fuel + 1) name args st
      = pushOp st ReflectionOp.any
    ∧ extractPackStructOfType env (fuel + 1) (Node.typeRef name args) st
      = extractPackStructOfTypeReference env fuel name args st
    ∧ extractPackStructOfType env (fuel + 1) Node.otherNode st
      = pushOp st ReflectionOp.any := by
  have hpb : (name == "Promise") = false := by
    simpa using hp
  refine ⟨?_, by simp only [extractPackStructOfType,
    extractPackStructOfTypeReference, extractGo], by simp only [extractPackStructOfType, extractGo]⟩
  unfold extractPackStructOfTypeReference
  simp only [extractGo, hk, hpb, hr, Bool.false_eq_true, if_false]

/-- Witness for C9 at a concrete input: the unresolvable identifier "Foo"
in the empty environment. -/
theorem C9_any_fallback_witness :
    knownClassOp "Foo" = none
    ∧ "Foo" ≠ "Promise"
    ∧ envEmpty.resolve "Foo" = none
    ∧ extractPackStructOfTypeReference envEmpty 2 "Foo" [] (stEmpty 0)
        = pushOp (stEmpty 0) ReflectionOp.any :=
  ⟨rfl, by decide, rfl,
    (C9_any_fallback envEmpty 1 (stEmpty 0) "Foo" [] rfl (by decide) rfl).1⟩

/-- When some member of the list is named __type, the decorateClass member
loop signals early return (none), whatever was accumulated so far. -/
theorem decorateClassGo_hasType {env : Env} {fuel nid : Nat}
    {mm : Node → String} :
    ∀ (mems : List ClassElement) (elements : List (String × Packed)),
      (mems.any fun el => classElementName el == "__type") = true →
      decorateClassGo env fuel nid mm mems elements = none := by
  intro mems
  induction mems with
  | nil => intro elements hany; simp at hany
  | cons el rest ih =>
    intro elements hany
    simp only [List.any_cons, Bool.or_eq_true, beq_iff_eq] at hany
    by_cases hel : classElementName el = "__type"
    · simp only [decorateClassGo]
      rw [if_neg (by rw [hel]; decide), if_pos hel]
    · have h2 : (rest.any fun el => classElementName el == "__type") = true := by
        cases hany with
        | inl h1 => exact absurd h1 hel
        | inr h2 => simpa using h2
      by_cases he : classElementName el = ""
      · simp only [decorateClassGo]
        rw [if_pos he]
        exact ih elements h2
      · simp only [decorateClassGo]
        rw [if_neg he, if_neg hel]
        cases el with
        | typeMember init => rfl
        | member m =>
          cases hg : getTypeOfType env fuel nid (mm m) m with
          | none => simp only [hg]; exact ih elements h2
          | some p => simp only [hg]; exact ih _ h2

/-- Claim C8: a class declaration that already contains a member named
__type is returned unchanged by the decorator (re-decoration has no
effect). -/
theorem C8_idempotent (env : Env) (fuel nid : Nat) (classMode : String)
    (memberMode : Node → String) (c : ClassDecl)
    (h : (c.members.any fun el => classElementName el == "__type") = true) :
    decorateClass env fuel nid classMode memberMode c = c := by
  unfold decorateClass
  by_cases hm : classMode = "never"
  · rw [if_pos hm]
  · rw [if_neg hm, decorateClassGo_hasType c.members [] h]

/-- Witness for C8 at a concrete input: a class already bearing the
synthesized static __type member is returned unchanged. -/
theorem C8_idempotent_witness :
    ((⟨"M", [ClassElement.typeMember []]⟩ : ClassDecl).members.any
        fun el => classElementName el == "__type") = true
    ∧ decorateClass envEmpty 1 0 "default" (fun _ => "default")
        ⟨"M", [ClassElement.typeMember []]⟩
      = ⟨"M", [ClassElement.typeMember []]⟩ :=
  ⟨rfl, C8_idempotent envEmpty 1 0 "default" (fun _ => "default")
    ⟨"M", [ClassElement.typeMember []]⟩ rfl⟩

/-- When no ancestor directory carries a reflection field, the directory
walk falls through to "never". -/
theorem walkDirs_never :
    ∀ (dirs : List DirEntry), (∀ d ∈ dirs, hasReflectionField d = false) →
      walkDirs dirs = "never" := by
  intro dirs
  induction dirs with
  | nil => intro _; rfl
  | cons d rest ih =>
    intro hall
    cases d with
    | noConfig => exact ih fun x hx => hall x (List.mem_cons_of_mem _ hx)
    | parseError => exact ih fun x hx => hall x (List.mem_cons_of_mem _ hx)
    | config o =>
      cases o with
      | none =>
        exact ih fun x hx => hall x (List.mem_cons_of_mem _ hx)
      | some v =>
        have := hall (DirEntry.config (some v)) (List.mem_cons_self _ _)
        simp [hasReflectionField] at this

/-- Claim C5: the effective reflection mode is resolved with the nearest
doc-comment reflection tag on the parent chain first, then the session
override, then the directory walk, whose first ancestor carrying a
reflection field wins; with none of these present the mode is "never" and
the decorator leaves any class unchanged (no static __type member). -/
theorem C5_reflection_mode_precedence (oenv : OracleEnv) :
    (∀ m, findTagMode oenv.chain = some m → findReflectionConfig oenv = m)
    ∧ (∀ m, findTagMode oenv.chain = none → oenv.override = some m →
        findReflectionConfig oenv = m)
    ∧ (findTagMode oenv.chain = none → oenv.override = none →
        findReflectionConfig oenv = walkDirs oenv.dirs)
    ∧ (∀ (v : ConfVal) (rest : List DirEntry),
        walkDirs (DirEntry.config (some v) :: rest) = parseReflectionMode v)
    ∧ (∀ (d : DirEntry) (rest : List DirEntry), hasReflectionField d = false →
        walkDirs (d :: rest) = walkDirs rest)
    ∧ (findTagMode oenv.chain = none → oenv.override = none →
        (∀ d ∈ oenv.dirs, hasReflectionField d = false) →
        findReflectionConfig oenv = "never"
        ∧ ∀ (env : Env) (fuel nid : Nat) (mm : Node → String) (c : ClassDecl),
            decorateClass env fuel nid (findReflectionConfig oenv) mm c = c) := by
  refine ⟨?_, ?_, ?_, ?_, ?_, ?_⟩
  · intro m hm
    simp [findReflectionConfig, hm]
  · intro m h1 h2
    simp [findReflectionConfig, h1, h2]
  · intro h1 h2
    simp [findReflectionConfig, h1, h2]
  · intro v rest
    rfl
  · intro d rest hd
    cases d with
    | noConfig => rfl
    | parseError => rfl
    | config o =>
      cases o with
      | none => rfl
      | some v => simp [hasReflectionField] at hd
  · intro h1 h2 h3
    have hnever : findReflectionConfig oenv = "never" := by
      simp [findReflectionConfig, h1, h2, walkDirs_never oenv.dirs h3]
    refine ⟨hnever, fun env fuel nid mm c => ?_⟩
    rw [hnever]
    simp [decorateClass]

/-- Witness for C5 at a concrete input: no tags anywhere on the chain, no
session override, one ancestor directory without a tsconfig - the resolved
mode is "never" and a concrete class is left unchanged. -/
theorem C5_reflection_mode_precedence_witness :
    findReflectionConfig ⟨[[]], none, [DirEntry.noConfig]⟩ = "never"
    ∧ decorateClass envEmpty 1 0
        (findReflectionConfig ⟨[[]], none, [DirEntry.noConfig]⟩)
        (fun _ => "default") ⟨"W", []⟩
      = ⟨"W", []⟩ := by
  have h := (C5_reflection_mode_precedence ⟨[[]], none, [DirEntry.noConfig]⟩).2.2.2.2.2
    rfl rfl (by decide)
  exact ⟨h.1, h.2 envEmpty 1 0 (fun _ => "default") ⟨"W", []⟩⟩

/-- Claim C4 (code evaluation at the failing input).  The claim (and the
spec's resolver contract) says the fallback through an import specifier
searches the referenced source file for the ORIGINALLY sought identifier.
The code instead passes the hard-coded name "Message" (the spec itself
flags this as a likely bug): for the identifier "Model", whose symbol's
first declaration is an import specifier into a file that declares "Model"
(id 7) and whose declared type yields nothing, resolution fails - while
resolveImportSpecifier with the original name "Model" would have found
declaration 7. -/
theorem C4_resolver_eval :
    resolveDeclaration modelProg modelChecker 5 "Model" = none
    ∧ resolveImportSpecifier modelProg 5 "Model" modelImportRef = some 7
    ∧ resolveImportSpecifier modelProg 5 "Message" modelImportRef = none :=
  ⟨rfl, rfl, rfl⟩
